import Mathlib

/-!
Verification of the Fonty glyph-transplantation script (src/Fonty.py).

Strings from the Python program are embedded as `List Char`.  Pure helpers
(`parse_hex_int`, `find_font_files`, path manipulation) are translated
directly; the FontForge library surface (fonts, glyphs, bounding boxes,
transforms) is modelled by explicit records, and the side-effecting parts of
`main` are modelled as a function producing an event trace together with the
final in-memory state of the transfer loop.
-/

namespace Fonty

/-- ASCII whitespace characters stripped by Python `str.strip()`
(the embedding is scoped to ASCII input). -/
def isPySpace (c : Char) : Bool :=
  c = ' ' ∨ c = '\t' ∨ c = '\n' ∨ c = '\r' ∨ c = '\x0b' ∨ c = '\x0c'

/-- Python `s.strip()`: remove leading and trailing whitespace. -/
def pyStrip (s : List Char) : List Char :=
  ((s.dropWhile isPySpace).reverse.dropWhile isPySpace).reverse

/-- ASCII lowering of one character, as done by `str.lower()` on ASCII text. -/
def asciiLower (c : Char) : Char :=
  match c with
  | 'A' => 'a' | 'B' => 'b' | 'C' => 'c' | 'D' => 'd' | 'E' => 'e' | 'F' => 'f'
  | 'G' => 'g' | 'H' => 'h' | 'I' => 'i' | 'J' => 'j' | 'K' => 'k' | 'L' => 'l'
  | 'M' => 'm' | 'N' => 'n' | 'O' => 'o' | 'P' => 'p' | 'Q' => 'q' | 'R' => 'r'
  | 'S' => 's' | 'T' => 't' | 'U' => 'u' | 'V' => 'v' | 'W' => 'w' | 'X' => 'x'
  | 'Y' => 'y' | 'Z' => 'z'
  | c => c

/-- Python `s.lower()` (ASCII fragment). -/
def pyLower (s : List Char) : List Char := s.map asciiLower

/-- Value of one hexadecimal digit (either case), `none` for non-digits. -/
def hexVal (c : Char) : Option Nat :=
  if '0' ≤ c ∧ c ≤ '9' then some (c.toNat - '0'.toNat)
  else if 'a' ≤ c ∧ c ≤ 'f' then some (c.toNat - 'a'.toNat + 10)
  else if 'A' ≤ c ∧ c ≤ 'F' then some (c.toNat - 'A'.toNat + 10)
  else none

/-- Digits of a Python base-16 literal after the first digit: hex digits with
single underscores allowed between digits (CPython literal rule).  `afterUnd`
records that the previous character was an underscore, which must be followed
by a digit. -/
def pyHexRun : List Char → Bool → Nat → Option Nat
  | [], afterUnd, acc => if afterUnd then none else some acc
  | c :: cs, afterUnd, acc =>
    if c = '_' then
      if afterUnd then none else pyHexRun cs true acc
    else (hexVal c).bind (fun v => pyHexRun cs false (16 * acc + v))

/-- Digit part of a Python base-16 literal.  `allowLead` is true directly after
a `0x` base marker, where CPython tolerates one leading underscore. -/
def pyHexBody : Bool → List Char → Option Nat
  | _, [] => none
  | allowLead, c :: cs =>
    if c = '_' then
      if allowLead then pyHexRun cs true 0 else none
    else (hexVal c).bind (fun v => pyHexRun cs false v)

/-- Python base-16 literal after the optional sign: an optional case-insensitive
`0x` base marker followed by the digits. -/
def pyHexAfterSign : List Char → Option Nat
  | c0 :: c1 :: rest =>
    if c0 = '0' ∧ (c1 = 'x' ∨ c1 = 'X') then pyHexBody true rest
    else pyHexBody false (c0 :: c1 :: rest)
  | l => pyHexBody false l

/-- Python `int(s, 16)` after whitespace stripping: accepts an optional sign,
an optional case-insensitive `0x` marker, and underscore-separated hex digits;
`none` models a raised `ValueError`. -/
def pyIntBase16Stripped : List Char → Option Int
  | [] => (pyHexAfterSign []).map (fun n => (n : Int))
  | c :: cs =>
    if c = '+' then (pyHexAfterSign cs).map (fun n => (n : Int))
    else if c = '-' then (pyHexAfterSign cs).map (fun n => -(n : Int))
    else (pyHexAfterSign (c :: cs)).map (fun n => (n : Int))

/-- Python `int(s, 16)`: strip surrounding whitespace, then parse. -/
def pyIntBase16 (s : List Char) : Option Int :=
  pyIntBase16Stripped (pyStrip s)

/-- The manual prefix strip of `parse_hex_int` (the string is lowercased just
before, so only the lowercase marker occurs): drop one leading `0x`. -/
def dropHexMark : List Char → List Char
  | c0 :: c1 :: rest => if c0 = '0' ∧ c1 = 'x' then rest else c0 :: c1 :: rest
  | l => l

/-- `parse_hex_int` from Fonty.py: strip, lower, drop one `0x` marker, reject
the empty remainder, parse with `int(_, 16)`, and keep the value only when it
lies in the Unicode scalar range `[0, 0x10FFFF]`. -/
def parse_hex_int (s : List Char) : Option Nat :=
  if dropHexMark (pyLower (pyStrip s)) = [] then none
  else
    (pyIntBase16 (dropHexMark (pyLower (pyStrip s)))).bind
      (fun v => if 0 ≤ v ∧ v ≤ 0x10FFFF then some v.toNat else none)

example : parse_hex_int "0041".data = some 65 := by decide
example : parse_hex_int "0x41".data = some 65 := by decide
example : parse_hex_int "0X41".data = some 65 := by decide
example : parse_hex_int "".data = none := by decide
example : parse_hex_int "  2A  ".data = some 42 := by decide
example : parse_hex_int "110000".data = none := by decide
example : parse_hex_int "10FFFF".data = some 0x10FFFF := by decide
example : parse_hex_int "-41".data = none := by decide
example : parse_hex_int "+41".data = some 65 := by decide
example : parse_hex_int "4_1".data = some 65 := by decide
example : parse_hex_int "0x0x41".data = some 65 := by decide
example : parse_hex_int "zz".data = none := by decide
example : parse_hex_int "0x".data = none := by decide
example : parse_hex_int "_1".data = none := by decide
example : parse_hex_int "1_".data = none := by decide
example : parse_hex_int "1__2".data = none := by decide
example : parse_hex_int "0x0x_1".data = some 1 := by decide
example : parse_hex_int "0x0x__1".data = none := by decide
example : parse_hex_int "0x0x_".data = none := by decide

/-! ## Claim-side description of `parse_hex_int`

`specHexParse` follows the wording of the spec, for comparison with the real
`parse_hex_int`: an optional case-insensitive `0x` prefix followed by hex
digits yields the base-16 value when it lies in `[0, 0x10FFFF]`; the empty
string, strings containing non-hex characters, and out-of-range values yield
no value. -/

/-- A character that is a hexadecimal digit. -/
def isHexDigit (c : Char) : Bool := (hexVal c).isSome

/-- Base-16 value of a list of hex digits. -/
def hexListVal (cs : List Char) : Nat :=
  cs.foldl (fun a c => 16 * a + (hexVal c).getD 0) 0

/-- Drop an optional case-insensitive `0x` prefix (spec wording). -/
def specDropMark : List Char → List Char
  | c0 :: c1 :: rest => if c0 = '0' ∧ (c1 = 'x' ∨ c1 = 'X') then rest else c0 :: c1 :: rest
  | l => l

/-- A string made of an optional case-insensitive `0x` prefix followed by one
or more hex digits. -/
def wellFormedHex (s : List Char) : Bool :=
  specDropMark s ≠ [] ∧ (specDropMark s).all isHexDigit

/-- The behaviour the spec ascribes to `parse_hex_int`. -/
def specHexParse (s : List Char) : Option Nat :=
  if wellFormedHex s then
    if hexListVal (specDropMark s) ≤ 0x10FFFF then some (hexListVal (specDropMark s))
    else none
  else none

/-! ## Codepoint collection (Fonty.py lines 81-106) -/

/-- Python `s.split(",")`: split on every comma, keeping empty parts. -/
def splitComma : List Char → List (List Char)
  | [] => [[]]
  | c :: cs =>
    let r := splitComma cs
    if c = ',' then [] :: r
    else (c :: r.headI) :: r.tail

/-- Codepoints contributed by the start/end range prompt: both raw inputs are
stripped; if both are non-empty, both parse, and `end_cp >= start_cp`, the
inclusive range is added, otherwise nothing. -/
def rangeCodepoints (start_raw end_raw : List Char) : List Nat :=
  if pyStrip start_raw ≠ [] ∧ pyStrip end_raw ≠ [] then
    match parse_hex_int (pyStrip start_raw), parse_hex_int (pyStrip end_raw) with
    | some a, some b => if a ≤ b then List.range' a (b + 1 - a) else []
    | _, _ => []
  else []

/-- Codepoints contributed by the comma-separated list prompt: each part that
parses is added, invalid parts are dropped; an input that strips to the empty
string contributes nothing. -/
def specificCodepoints (specific_raw : List Char) : List Nat :=
  if pyStrip specific_raw ≠ [] then
    (splitComma (pyStrip specific_raw)).foldr (fun part acc =>
      match parse_hex_int part with
      | some v => v :: acc
      | none => acc) []
  else []

/-- The Python `codepoints` set after both prompts, as a duplicate-free list
(a Python `set` is determined by membership only). -/
def collectedCodepoints (start_raw end_raw specific_raw : List Char) : List Nat :=
  (rangeCodepoints start_raw end_raw ++ specificCodepoints specific_raw).dedup

/-- `final_codepoints = sorted(codepoints)`. -/
def finalCodepoints (start_raw end_raw specific_raw : List Char) : List Nat :=
  List.insertionSort (· ≤ ·) (collectedCodepoints start_raw end_raw specific_raw)

example : finalCodepoints "0041".data "0043".data "0x24".data = [0x24, 0x41, 0x42, 0x43] := by decide
example : finalCodepoints "43".data "41".data "".data = [] := by decide
example : finalCodepoints "".data "".data "41, 24 ,zz,41".data = [0x24, 0x41] := by decide

/-! ## Paths and font-file discovery (Fonty.py lines 47-68, 132-137) -/

/-- `os.path.join(a, b)` on POSIX: an absolute second component discards the
first; otherwise the parts are joined with a single separator. -/
def posixJoin (a b : List Char) : List Char :=
  if b.head? = some '/' then b
  else if a = [] ∨ a.getLast? = some '/' then a ++ b
  else a ++ '/' :: b

/-- Extension part of `os.path.splitext(p)`: the suffix of the basename from
its last dot, except that dots leading the basename never start an extension. -/
def splitextExt (p : List Char) : List Char :=
  let b := (p.reverse.takeWhile (fun c => c ≠ '/')).reverse
  let rest := b.dropWhile (fun c => c = '.')
  if rest.any (fun c => c = '.') then
    '.' :: (b.reverse.takeWhile (fun c => c ≠ '.')).reverse
  else []

example : splitextExt "Destination/dest.otf".data = ".otf".data := by decide
example : splitextExt "Destination/.otf".data = [] := by decide
example : splitextExt "a.b/c".data = [] := by decide
example : splitextExt "x..b".data = ".b".data := by decide

/-- Output extension chosen by main: the destination path's extension,
lowercased, kept when it is `.ttf` or `.otf` and replaced by `.ttf` otherwise. -/
def outputExt (dest_path : List Char) : List Char :=
  if pyLower (splitextExt dest_path) = ".ttf".data ∨ pyLower (splitextExt dest_path) = ".otf".data
  then pyLower (splitextExt dest_path) else ".ttf".data

/-- `output_path = os.path.join("Output", new_font_name + ext)`. -/
def output_path (dest_path name : List Char) : List Char :=
  posixJoin "Output".data (name ++ outputExt dest_path)

example : output_path "Destination/dest.otf".data "MyFont".data = "Output/MyFont.otf".data := by decide
example : output_path "Destination/dest.otf".data "/A".data = "/A.otf".data := by decide

/-- `find_font_files`: `none` models a missing folder (`os.path.isdir` false),
`some fs` models the `os.listdir` result; entries are kept when the lowercased
name ends with `.ttf` or `.otf`. -/
def find_font_files (listing : Option (List (List Char))) : List (List Char) :=
  match listing with
  | none => []
  | some fs =>
    fs.filter (fun f => ".ttf".data.isSuffixOf (pyLower f) ∨ ".otf".data.isSuffixOf (pyLower f))

/-- Python `files[idx]`: non-negative indices from the front, negative indices
from the back, `none` models a raised `IndexError`. -/
def pyListGet (fs : List (List Char)) (idx : Int) : Option (List Char) :=
  if 0 ≤ idx ∧ idx < fs.length then fs.get? idx.toNat
  else if -(fs.length : Int) ≤ idx ∧ idx < 0 then fs.get? (fs.length - (-idx).toNat)
  else none

/-- `choose_file`: no candidate aborts with `none`; a single candidate is
auto-selected; with several candidates the user's index input is used, any
parse or index error falling back to the first candidate.  The index input is
abstracted as `Option Int`: `some i` when `int(choice)` (or the empty-input
default 0) yields `i`, `none` when `int(choice)` raises. -/
def choose_file (folder : List Char) (listing : Option (List (List Char)))
    (choice : Option Int) : Option (List Char) :=
  match find_font_files listing with
  | [] => none
  | [f] => some (posixJoin folder f)
  | f :: f2 :: r2 =>
    match choice with
    | none => some (posixJoin folder f)
    | some i => some (posixJoin folder ((pyListGet (f :: f2 :: r2) i).getD f))

example : choose_file "Destination".data (some ["a.TTF".data, "b.png".data]) none
    = some "Destination/a.TTF".data := by decide
example : choose_file "Destination".data (some ["b.png".data]) none = none := by decide
example : choose_file "Source".data (some ["a.ttf".data, "b.otf".data]) (some (-1))
    = some "Source/b.otf".data := by decide

/-! ## Fonts and glyphs

The FontForge objects are modelled by records: a glyph carries its bounding
box, its horizontal metrics, and its `isWorthOutputting` flag; a font maps
codepoints to optional glyph slots and records its units-per-em.  Affine
transforms act on the recorded bounding box (`psMat.scale(k)` with the
non-negative factors used here multiplies coordinates by `k`;
`psMat.translate(0, dy)` adds `dy` to the y-coordinates). -/

/-- One glyph slot: bounding box `(xmin, ymin, xmax, ymax)`, advance width,
side bearings, and the `isWorthOutputting` flag. -/
structure Glyph where
  xmin : ℚ
  ymin : ℚ
  xmax : ℚ
  ymax : ℚ
  width : ℚ
  lsb : ℚ
  rsb : ℚ
  worth : Bool
deriving DecidableEq

/-- A font: glyph slots indexed by codepoint, plus units-per-em. -/
structure Font where
  glyphs : Nat → Option Glyph
  em : Nat

/-- `isWorthOutputting` of a slot, false for an empty slot. -/
def slotWorth : Option Glyph → Bool
  | some g => g.worth
  | none => false

/-- `cp in font and font[cp].isWorthOutputting()`. -/
def outputtable (f : Font) (cp : Nat) : Bool :=
  slotWorth (f.glyphs cp)

/-- Top y-coordinate (`boundingBox()[3]`) of a slot, 0 if empty. -/
def slotTop : Option Glyph → ℚ
  | some g => g.ymax
  | none => 0

/-- Top y-coordinate (`boundingBox()[3]`) of the slot at `cp`, 0 if empty. -/
def glyphTop (f : Font) (cp : Nat) : ℚ :=
  slotTop (f.glyphs cp)

/-- `scale_factor = out_font.em / src_font.em` (Fonty.py line 157). -/
def scale_factor (out_font src_font : Font) : ℚ :=
  (out_font.em : ℚ) / (src_font.em : ℚ)

/-- `g.transform(psMat.scale(k))` for `k ≥ 0`. -/
def scaleGlyph (k : ℚ) (g : Glyph) : Glyph :=
  { xmin := k * g.xmin, ymin := k * g.ymin, xmax := k * g.xmax, ymax := k * g.ymax,
    width := k * g.width, lsb := k * g.lsb, rsb := k * g.rsb, worth := g.worth }

/-- `g.transform(psMat.translate(0, dy))`. -/
def translateYGlyph (dy : ℚ) (g : Glyph) : Glyph :=
  { g with ymin := g.ymin + dy, ymax := g.ymax + dy }

/-- Overwrite one slot of a font. -/
def setSlot (f : Font) (cp : Nat) (s : Option Glyph) : Font :=
  { f with glyphs := fun c => if c = cp then s else f.glyphs c }

/-- Python `int(round(q))`: round half to even, as `round()` does. -/
def pyRound (q : ℚ) : ℤ :=
  if q - ⌊q⌋ < 1 / 2 then ⌊q⌋
  else if 1 / 2 < q - ⌊q⌋ then ⌊q⌋ + 1
  else if ⌊q⌋ % 2 = 0 then ⌊q⌋ else ⌊q⌋ + 1

example : pyRound (1 / 2) = 0 := by norm_num [pyRound]
example : pyRound (3 / 2) = 2 := by norm_num [pyRound]
example : pyRound (-1 / 2) = 0 := by norm_num [pyRound]
example : pyRound (7 / 10) = 1 := by norm_num [pyRound]

/-- `align_mode = choice if choice in ("1","2","3") else "1"` (lines 165-166). -/
def alignMode (raw : List Char) : List Char :=
  if pyStrip raw = "1".data ∨ pyStrip raw = "2".data ∨ pyStrip raw = "3".data
  then pyStrip raw else "1".data

/-! ## The glyph-transfer loop (Fonty.py lines 169-216) -/

/-- Events of a run, used to state ordering and frame properties: directory
creation, the `shutil.copy2` file copy, font opens, in-memory mutations of the
font opened from a path (font-level metadata, per-glyph edits), per-codepoint
log lines, serialization (`generate`), the final count report, and
`sys.exit`. -/
inductive Ev where
  | mkdirOutput : Ev
  | copyFile : List Char → List Char → Ev
  | openFont : List Char → Ev
  | mutateMeta : List Char → Ev
  | mutateGlyph : List Char → Nat → Ev
  | logSkip : Nat → Ev
  | logReplace : Nat → Ev
  | logError : Nat → Ev
  | generate : List Char → Ev
  | reportCounts : Nat → Nat → Ev
  | exitP : Nat → Ev
deriving DecidableEq

/-- Is this event the `shutil.copy2` file copy? -/
def Ev.isCopy : Ev → Bool
  | Ev.copyFile _ _ => true
  | _ => false

/-- Is this event an in-memory mutation of an opened font? -/
def Ev.isMutate : Ev → Bool
  | Ev.mutateMeta _ => true
  | Ev.mutateGlyph _ _ => true
  | _ => false

/-- Does this event write the file at path `p` (create or change it)? -/
def Ev.writesTo : Ev → List Char → Bool
  | Ev.copyFile _ d, p => d = p
  | Ev.generate q, p => q = p
  | _, _ => false

/-- Does this event mutate the in-memory font opened from path `p`? -/
def Ev.mutatesOf : Ev → List Char → Bool
  | Ev.mutateMeta q, p => q = p
  | Ev.mutateGlyph q _, p => q = p
  | _, _ => false

/-- State threaded through the transfer loop: the output font and the two
counters. -/
structure LoopState where
  out : Font
  replaced : Nat
  skipped : Nat

/-- The glyph written to the output slot by one successful iteration, given the
source glyph `sg` and the previous content `old` of the destination slot:
paste a copy of the source glyph, scale it, apply the y-alignment shift, and
overwrite width/lsb/rsb with the rounded scaled source metrics. -/
def transferredGlyph (sf : ℚ) (mode : List Char) (sg : Glyph) (old : Option Glyph) : Glyph :=
  let oldBT : Option (ℚ × ℚ) :=
    match old with
    | some og => if og.worth then some (og.ymin, og.ymax) else none
    | none => none
  let g1 := scaleGlyph sf sg
  let shift : ℚ :=
    if mode = "2".data then
      match oldBT with
      | some bt => bt.2 - g1.ymax
      | none => 0
    else if mode = "3".data then
      match oldBT with
      | some bt => bt.1 - g1.ymin
      | none => 0
    else 0
  let g2 := translateYGlyph shift g1
  { g2 with
    width := (pyRound (sg.width * sf) : ℚ),
    lsb := (pyRound (sg.lsb * sf) : ℚ),
    rsb := (pyRound (sg.rsb * sf) : ℚ) }

/-- One iteration of the transfer loop at codepoint `cp`.  `raises cp` models
the library raising an exception during the transfer of `cp` (after the
source-availability check); `excG cp` gives the content the interrupted
iteration leaves in the slot it was editing.  Returns the next state and the
events of the iteration. -/
def stepGlyphSlot (sf : ℚ) (mode : List Char) (raises : Nat → Bool)
    (excG : Nat → Option Glyph → Option Glyph) (opath : List Char)
    (st : LoopState) (cp : Nat) : Option Glyph → LoopState × List Ev
  | none => ({ st with skipped := st.skipped + 1 }, [Ev.logSkip cp])
  | some sg =>
    if sg.worth = false then ({ st with skipped := st.skipped + 1 }, [Ev.logSkip cp])
    else if raises cp then
      ({ st with out := setSlot st.out cp (excG cp (st.out.glyphs cp)) },
       [Ev.mutateGlyph opath cp, Ev.logError cp])
    else
      ({ out := setSlot st.out cp (some (transferredGlyph sf mode sg (st.out.glyphs cp))),
         replaced := st.replaced + 1, skipped := st.skipped },
       [Ev.mutateGlyph opath cp, Ev.logReplace cp])

/-- One iteration of the transfer loop, dispatching on the source slot. -/
def stepGlyph (src : Font) (sf : ℚ) (mode : List Char) (raises : Nat → Bool)
    (excG : Nat → Option Glyph → Option Glyph) (opath : List Char)
    (st : LoopState) (cp : Nat) : LoopState × List Ev :=
  stepGlyphSlot sf mode raises excG opath st cp (src.glyphs cp)

/-- The transfer loop over the sorted codepoint list. -/
def runLoop (src : Font) (sf : ℚ) (mode : List Char) (raises : Nat → Bool)
    (excG : Nat → Option Glyph → Option Glyph) (opath : List Char) :
    LoopState → List Nat → LoopState × List Ev
  | st, [] => (st, [])
  | st, cp :: rest =>
    let r1 := stepGlyph src sf mode raises excG opath st cp
    let r2 := runLoop src sf mode raises excG opath r1.1 rest
    (r2.1, r1.2 ++ r2.2)

/-! ## The whole run (Fonty.py `main`) -/

/-- All run-determining inputs of `main`: library availability, the raw
prompt answers, the directory listings of `Source/` and `Destination/`, the
(abstracted) file-pick answers, whether `fontforge.open` raises, the two
opened fonts (`outFont` is the opened copy, whose content equals the chosen
destination file), and the per-codepoint exception oracle of the loop. -/
structure RunInput where
  libAvailable : Bool
  start_raw : List Char
  end_raw : List Char
  specific_raw : List Char
  font_name_raw : List Char
  srcListing : Option (List (List Char))
  destListing : Option (List (List Char))
  srcChoice : Option Int
  destChoice : Option Int
  openFails : Bool
  srcFont : Font
  outFont : Font
  align_raw : List Char
  raises : Nat → Bool
  excG : Nat → Option Glyph → Option Glyph

/-- The source path selected by `choose_file(source_folder, "Source")`. -/
def srcPathOf (inp : RunInput) : Option (List Char) :=
  choose_file "Source".data inp.srcListing inp.srcChoice

/-- The destination path selected by `choose_file(dest_folder, "Destination")`. -/
def destPathOf (inp : RunInput) : Option (List Char) :=
  choose_file "Destination".data inp.destListing inp.destChoice

/-- The output path of a run whose destination selection succeeded. -/
def outPathOf (inp : RunInput) : Option (List Char) :=
  (destPathOf inp).map (fun dp => output_path dp (pyStrip inp.font_name_raw))

/-- The codepoint list of a run. -/
def cpsOf (inp : RunInput) : List Nat :=
  finalCodepoints inp.start_raw inp.end_raw inp.specific_raw

/-- The transfer loop of a run, on the output font opened from `op`, with the
scale factor computed once from the two fonts and the alignment mode fixed
once from the user's choice. -/
def loopOf (inp : RunInput) (op : List Char) : LoopState × List Ev :=
  runLoop inp.srcFont (scale_factor inp.outFont inp.srcFont) (alignMode inp.align_raw)
    inp.raises inp.excG op { out := inp.outFont, replaced := 0, skipped := 0 } (cpsOf inp)

/-- The whole of `main`, as an event trace plus the final loop state (`none`
when the run exits before the loop).  Mirrors the order of Fonty.py: import
guard, `os.makedirs`, codepoint collection with the benign empty exit,
metadata prompts (pure), font selection with the fatal exit, output-path
computation and `shutil.copy2`, `fontforge.open` with the fatal exit, metadata
assignment, scale factor, alignment choice, transfer loop, `generate`, and
the final report. -/
def mainRun (inp : RunInput) : List Ev × Option LoopState :=
  if inp.libAvailable = false then ([Ev.exitP 1], none)
  else
    let cps := cpsOf inp
    if cps = [] then ([Ev.mkdirOutput, Ev.exitP 0], none)
    else
      match srcPathOf inp, destPathOf inp with
      | some sp, some dp =>
        let op := output_path dp (pyStrip inp.font_name_raw)
        if inp.openFails then
          ([Ev.mkdirOutput, Ev.copyFile dp op, Ev.exitP 1], none)
        else
          let r := loopOf inp op
          ([Ev.mkdirOutput, Ev.copyFile dp op, Ev.openFont sp, Ev.openFont op,
            Ev.mutateMeta op] ++ r.2 ++
            [Ev.generate op, Ev.reportCounts r.1.replaced r.1.skipped],
           some r.1)
      | _, _ => ([Ev.mkdirOutput, Ev.exitP 1], none)

/-! ## Concrete example runs (used by the witnesses below) -/

/-- A source glyph at U+0041. -/
def exGlyph : Glyph :=
  { xmin := 0, ymin := 0, xmax := 10, ymax := 20, width := 100, lsb := 5, rsb := 7, worth := true }

/-- The destination's previous glyph at U+0041, with top y = 700. -/
def exOldGlyph : Glyph :=
  { xmin := 0, ymin := -5, xmax := 8, ymax := 700, width := 90, lsb := 4, rsb := 6, worth := true }

/-- A source font with em 2048 and one glyph at U+0041. -/
def exSrcFont : Font :=
  { glyphs := fun c => if c = 0x41 then some exGlyph else none, em := 2048 }

/-- A destination font with em 1000 and one glyph at U+0041. -/
def exOutFont : Font :=
  { glyphs := fun c => if c = 0x41 then some exOldGlyph else none, em := 1000 }

/-- A fully successful example run transferring U+0041 in alignment mode 2. -/
def exInput : RunInput :=
  { libAvailable := true, start_raw := [], end_raw := [], specific_raw := "41".data,
    font_name_raw := "MyFont".data,
    srcListing := some ["src.ttf".data], destListing := some ["dest.otf".data],
    srcChoice := none, destChoice := none, openFails := false,
    srcFont := exSrcFont, outFont := exOutFont, align_raw := "2".data,
    raises := fun _ => false, excG := fun _ s => s }

/-- As `exInput` but requesting U+0044, which the source font lacks. -/
def exInputMissing : RunInput := { exInput with specific_raw := "44".data }

/-- As `exInput` but with the library raising on every glyph transfer. -/
def exInputRaise : RunInput := { exInput with raises := fun _ => true }

/-- As `exInput` but with `fontforge.open` failing. -/
def exInputOpenFail : RunInput := { exInput with openFails := true }

/-! ## Basic lemmas -/

theorem parse_hex_int_nil : parse_hex_int [] = none := rfl

theorem parse_hex_int_some_ne_nil {s : List Char} {a : Nat}
    (h : parse_hex_int s = some a) : s ≠ [] := by
  intro h0
  rw [h0, parse_hex_int_nil] at h
  exact Option.noConfusion h

theorem finalCodepoints_nodup (a b c : List Char) : (finalCodepoints a b c).Nodup :=
  (List.perm_insertionSort (· ≤ ·) (collectedCodepoints a b c)).symm.nodup
    (List.nodup_dedup _)

theorem finalCodepoints_sorted_le (a b c : List Char) :
    List.Sorted (· ≤ ·) (finalCodepoints a b c) :=
  List.sorted_insertionSort (· ≤ ·) _

/-! ## C7: the final codepoint sequence is strictly ascending -/

/-- C7: for every combination of range input and explicit comma-list input, in
any order and with any overlap, the final codepoint sequence fed to the
transfer loop is strictly ascending and contains no duplicates. -/
theorem final_codepoints_strictly_ascending (a b c : List Char) :
    List.Sorted (· < ·) (finalCodepoints a b c) ∧ (finalCodepoints a b c).Nodup :=
  ⟨(finalCodepoints_sorted_le a b c).lt_of_le (finalCodepoints_nodup a b c),
   finalCodepoints_nodup a b c⟩

/-! ## C6: contribution of the start/end range -/

/-- C6: when both range inputs parse, the range contributes exactly the
integers in `[start_cp, end_cp]` if `end_cp >= start_cp` and nothing
otherwise; when either input fails to parse, the range contributes nothing. -/
theorem range_contribution (sraw eraw : List Char) :
    (∀ a b : Nat,
      parse_hex_int (pyStrip sraw) = some a → parse_hex_int (pyStrip eraw) = some b →
        ((a ≤ b → ∀ cp, cp ∈ rangeCodepoints sraw eraw ↔ a ≤ cp ∧ cp ≤ b) ∧
          (b < a → rangeCodepoints sraw eraw = []))) ∧
    ((parse_hex_int (pyStrip sraw) = none ∨ parse_hex_int (pyStrip eraw) = none) →
      rangeCodepoints sraw eraw = []) := by
  constructor
  · intro a b ha hb
    have hs : pyStrip sraw ≠ [] := by
      intro h0
      rw [h0, parse_hex_int_nil] at ha
      exact Option.noConfusion ha
    have he : pyStrip eraw ≠ [] := by
      intro h0
      rw [h0, parse_hex_int_nil] at hb
      exact Option.noConfusion hb
    constructor
    · intro hab cp
      unfold rangeCodepoints
      rw [if_pos ⟨hs, he⟩, ha, hb]
      simp only [if_pos hab, List.mem_range'_1]
      omega
    · intro hba
      unfold rangeCodepoints
      rw [if_pos ⟨hs, he⟩, ha, hb]
      simp only [if_neg (by omega : ¬ a ≤ b)]
  · intro h
    unfold rangeCodepoints
    by_cases hc : pyStrip sraw ≠ [] ∧ pyStrip eraw ≠ []
    · rw [if_pos hc]
      rcases h with h | h
      · simp [h]
      · rw [h]
        cases parse_hex_int (pyStrip sraw) <;> rfl
    · rw [if_neg hc]

/-- Witness for C6 at the spec's own scenario (`start="0041"`, `end="0043"`). -/
theorem range_contribution_witness :
    parse_hex_int (pyStrip "0041".data) = some 65 ∧
    parse_hex_int (pyStrip "0043".data) = some 67 ∧
    (66 ∈ rangeCodepoints "0041".data "0043".data ↔ 65 ≤ 66 ∧ 66 ≤ 67) :=
  ⟨by decide, by decide,
    ((range_contribution "0041".data "0043".data).1 65 67 (by decide) (by decide)).1
      (by decide) 66⟩

/-! ## C8: the output path -/

/-- C8 as stated is refuted by a new font name beginning with a path
separator: `os.path.join` then discards the `Output` folder, so the output
path is not `Output/<name><ext>`. -/
theorem output_path_claim_cex :
    output_path "Destination/dest.otf".data "/A".data = "/A.otf".data ∧
    output_path "Destination/dest.otf".data "/A".data ≠
      "Output/".data ++ "/A".data ++ outputExt "Destination/dest.otf".data := by
  constructor
  · decide
  · decide

/-- C8 amended: when the new font name does not begin with `/`, the output
path is `Output/<name><ext>`, where `<ext>` is the destination path's
(lowercased) extension when that is `.ttf` or `.otf`, and `.ttf` otherwise. -/
theorem output_path_amended (dest name : List Char) (h : name.head? ≠ some '/') :
    output_path dest name = "Output/".data ++ name ++ outputExt dest := by
  unfold output_path posixJoin
  have hne : (name ++ outputExt dest).head? ≠ some '/' := by
    cases name with
    | nil =>
      simp only [List.nil_append]
      unfold outputExt
      by_cases hc : pyLower (splitextExt dest) = ".ttf".data ∨ pyLower (splitextExt dest) = ".otf".data
      · rw [if_pos hc]
        rcases hc with hc | hc <;> rw [hc] <;> decide
      · rw [if_neg hc]; decide
    | cons c cs =>
      simpa using h
  rw [if_neg hne]
  rw [if_neg (by decide)]
  rfl

/-- Witness for the amended C8 at the spec's example (`dest.otf`, "MyFont"). -/
theorem output_path_amended_witness :
    ("MyFont".data.head? ≠ some '/') ∧
    output_path "Destination/dest.otf".data "MyFont".data =
      "Output/".data ++ "MyFont".data ++ outputExt "Destination/dest.otf".data :=
  ⟨by decide, output_path_amended "Destination/dest.otf".data "MyFont".data (by decide)⟩

/-! ## C5: `parse_hex_int` versus the spec's description -/

/-- C5 as stated is refuted: "+41" contains a character that is not a hex
digit, so the spec's description returns no value, yet `parse_hex_int`
returns 65 because Python `int(s, 16)` accepts a leading sign. -/
theorem parse_hex_int_claim_cex :
    parse_hex_int "+41".data = some 65 ∧ specHexParse "+41".data = none ∧
    parse_hex_int "+41".data ≠ specHexParse "+41".data := by
  refine ⟨by decide, by decide, by decide⟩

theorem hexVal_asciiLower (c : Char) : hexVal (asciiLower c) = hexVal c := by
  unfold asciiLower
  split <;> rfl

theorem not_space_of_isHexDigit {c : Char} (h : isHexDigit c = true) :
    isPySpace c = false := by
  unfold isPySpace
  rw [decide_eq_false_iff_not]
  rintro (rfl | rfl | rfl | rfl | rfl | rfl) <;> exact absurd h (by decide)

theorem dropWhile_eq_self_of_none {p : Char → Bool} {l : List Char}
    (h : ∀ c ∈ l, p c = false) : List.dropWhile p l = l := by
  cases l with
  | nil => rfl
  | cons a as => simp [List.dropWhile_cons, h a (by simp)]

theorem pyStrip_eq_self {s : List Char} (h : ∀ c ∈ s, isPySpace c = false) :
    pyStrip s = s := by
  unfold pyStrip
  rw [dropWhile_eq_self_of_none h,
    dropWhile_eq_self_of_none (fun c hc => h c (List.mem_reverse.1 hc)),
    List.reverse_reverse]

theorem pyHexRun_all_hex :
    ∀ (ds : List Char) (acc : Nat), (∀ c ∈ ds, isHexDigit c = true) →
      pyHexRun ds false acc =
        some (ds.foldl (fun a c => 16 * a + (hexVal c).getD 0) acc) := by
  intro ds
  induction ds with
  | nil => intro acc _; rfl
  | cons c cs ih =>
    intro acc h
    have hc : isHexDigit c = true := h c (by simp)
    have hcu : c ≠ '_' := by rintro rfl; exact absurd hc (by decide)
    simp only [pyHexRun, if_neg hcu]
    rcases hv : hexVal c with _ | v
    · rw [isHexDigit, hv] at hc
      exact absurd hc (by decide)
    · rw [Option.some_bind, ih _ (fun x hx => h x (by simp [hx]))]
      simp [hv]

theorem pyHexBody_false_all_hex (ds : List Char) (hne : ds ≠ [])
    (h : ∀ c ∈ ds, isHexDigit c = true) :
    pyHexBody false ds = some (hexListVal ds) := by
  cases ds with
  | nil => exact absurd rfl hne
  | cons d cs =>
    have hd : isHexDigit d = true := h d (by simp)
    have hdu : d ≠ '_' := by rintro rfl; exact absurd hd (by decide)
    simp only [pyHexBody, if_neg hdu]
    rcases hv : hexVal d with _ | v
    · rw [isHexDigit, hv] at hd
      exact absurd hd (by decide)
    · rw [Option.some_bind, pyHexRun_all_hex cs v (fun x hx => h x (by simp [hx]))]
      unfold hexListVal
      simp [hv]

theorem pyHexAfterSign_all_hex (ds : List Char) (hne : ds ≠ [])
    (h : ∀ c ∈ ds, isHexDigit c = true) :
    pyHexAfterSign ds = some (hexListVal ds) := by
  rcases ds with _ | ⟨d1, _ | ⟨d2, rest⟩⟩
  · exact absurd rfl hne
  · exact pyHexBody_false_all_hex [d1] (by simp) h
  · have h2 : isHexDigit d2 = true := h d2 (by simp)
    have hx : ¬(d1 = '0' ∧ (d2 = 'x' ∨ d2 = 'X')) := by
      rintro ⟨-, rfl | rfl⟩ <;> exact absurd h2 (by decide)
    simp only [pyHexAfterSign, if_neg hx]
    exact pyHexBody_false_all_hex (d1 :: d2 :: rest) (by simp) h

theorem pyIntBase16_all_hex (ds : List Char) (hne : ds ≠ [])
    (h : ∀ c ∈ ds, isHexDigit c = true) :
    pyIntBase16 ds = some ((hexListVal ds : Int)) := by
  unfold pyIntBase16
  rw [pyStrip_eq_self (fun c hc => not_space_of_isHexDigit (h c hc))]
  rcases ds with _ | ⟨d, cs⟩
  · exact absurd rfl hne
  · have hd : isHexDigit d = true := h d (by simp)
    have hp : d ≠ '+' := by rintro rfl; exact absurd hd (by decide)
    have hm : d ≠ '-' := by rintro rfl; exact absurd hd (by decide)
    simp only [pyIntBase16Stripped, if_neg hp, if_neg hm]
    rw [pyHexAfterSign_all_hex (d :: cs) (by simp) h]
    rfl

theorem isHexDigit_asciiLower (c : Char) : isHexDigit (asciiLower c) = isHexDigit c := by
  unfold isHexDigit
  rw [hexVal_asciiLower]

theorem hexListVal_pyLower (ds : List Char) : hexListVal (pyLower ds) = hexListVal ds := by
  unfold hexListVal pyLower
  rw [List.foldl_map]
  exact List.foldl_ext _ _ 0 (fun a x _ => by rw [hexVal_asciiLower])

theorem pyLower_all_hex {ds : List Char} (h : ∀ c ∈ ds, isHexDigit c = true) :
    ∀ c ∈ pyLower ds, isHexDigit c = true := by
  intro c hc
  rcases List.mem_map.1 hc with ⟨d, hd, rfl⟩
  rw [isHexDigit_asciiLower]
  exact h d hd

/-- Common tail of `parse_hex_int` on an all-hex-digit remainder. -/
theorem parse_tail_all_hex (t : List Char) (hne : t ≠ [])
    (h : ∀ c ∈ t, isHexDigit c = true) :
    (if t = [] then none
     else
       (pyIntBase16 t).bind
         (fun v => if 0 ≤ v ∧ v ≤ 0x10FFFF then some v.toNat else none)) =
    (if hexListVal t ≤ 0x10FFFF then some (hexListVal t) else none) := by
  rw [if_neg hne, pyIntBase16_all_hex t hne h, Option.some_bind]
  by_cases hv : hexListVal t ≤ 0x10FFFF
  · rw [if_pos ⟨Int.natCast_nonneg _, by exact_mod_cast hv⟩, if_pos hv, Int.toNat_natCast]
  · rw [if_neg (by rintro ⟨-, hle⟩; exact hv (by exact_mod_cast hle)), if_neg hv]

theorem pyLower_ne_nil {ds : List Char} (hne : ds ≠ []) : pyLower ds ≠ [] := by
  cases ds with
  | nil => exact absurd rfl hne
  | cons a as => simp [pyLower]

theorem parse_hex_int_plain (ds : List Char) (hne : ds ≠ [])
    (hall : ∀ c ∈ ds, isHexDigit c = true) :
    parse_hex_int ds = if hexListVal ds ≤ 0x10FFFF then some (hexListVal ds) else none := by
  have hlow := pyLower_all_hex hall
  have hmark : dropHexMark (pyLower ds) = pyLower ds := by
    cases hd : pyLower ds with
    | nil => rfl
    | cons a as =>
      cases as with
      | nil => rfl
      | cons b bs =>
        have hb : isHexDigit b = true := hlow b (by rw [hd]; simp)
        simp only [dropHexMark]
        rw [if_neg]
        rintro ⟨-, rfl⟩
        exact absurd hb (by decide)
  unfold parse_hex_int
  rw [pyStrip_eq_self (fun c hc => not_space_of_isHexDigit (hall c hc)), hmark,
    parse_tail_all_hex (pyLower ds) (pyLower_ne_nil hne) hlow, hexListVal_pyLower]

theorem parse_hex_int_marked (c1 : Char) (hx : c1 = 'x' ∨ c1 = 'X')
    (body : List Char) (hne : body ≠ [])
    (hall : ∀ c ∈ body, isHexDigit c = true) :
    parse_hex_int ('0' :: c1 :: body) =
      if hexListVal body ≤ 0x10FFFF then some (hexListVal body) else none := by
  have hnospace : ∀ c ∈ '0' :: c1 :: body, isPySpace c = false := by
    intro c hc
    rcases List.mem_cons.1 hc with rfl | hc
    · decide
    · rcases List.mem_cons.1 hc with rfl | hc
      · rcases hx with rfl | rfl <;> decide
      · exact not_space_of_isHexDigit (hall c hc)
  have hlowr : pyLower ('0' :: c1 :: body) = '0' :: 'x' :: pyLower body := by
    rcases hx with rfl | rfl <;> rfl
  unfold parse_hex_int
  rw [pyStrip_eq_self hnospace, hlowr]
  have hdm : dropHexMark ('0' :: 'x' :: pyLower body) = pyLower body := by
    simp [dropHexMark]
  rw [hdm, parse_tail_all_hex (pyLower body) (pyLower_ne_nil hne) (pyLower_all_hex hall),
    hexListVal_pyLower]

/-- C5 amended: on every string consisting of an optional case-insensitive
`0x` prefix followed by hex digits, `parse_hex_int` returns the base-16 value
iff it is at most 0x10FFFF, and it returns no value on the empty string (the
original claim's "no value for any string containing a non-hex character"
clause fails: Python `int(s, 16)` also accepts signs, underscores, whitespace
and a second `0x` marker). -/
theorem parse_hex_int_amended :
    (∀ s : List Char, wellFormedHex s = true → parse_hex_int s = specHexParse s) ∧
    parse_hex_int [] = none := by
  refine ⟨?_, rfl⟩
  intro s hwf
  have hwf' : specDropMark s ≠ [] ∧ ∀ c ∈ specDropMark s, isHexDigit c = true := by
    have h := hwf
    unfold wellFormedHex at h
    simp only [Bool.decide_and, Bool.and_eq_true, decide_eq_true_eq, List.all_eq_true] at h
    exact h
  obtain ⟨hne, hall⟩ := hwf'
  unfold specHexParse
  rw [if_pos hwf]
  rcases s with _ | ⟨c0, _ | ⟨c1, rest⟩⟩
  · exact absurd rfl hne
  · exact parse_hex_int_plain [c0] (by simp) hall
  · by_cases hm : c0 = '0' ∧ (c1 = 'x' ∨ c1 = 'X')
    · obtain ⟨rfl, hx⟩ := hm
      rcases hx with rfl | rfl
      · have hsd : specDropMark ('0' :: 'x' :: rest) = rest := by simp [specDropMark]
        rw [hsd] at hne hall ⊢
        exact parse_hex_int_marked 'x' (Or.inl rfl) rest hne hall
      · have hsd : specDropMark ('0' :: 'X' :: rest) = rest := by simp [specDropMark]
        rw [hsd] at hne hall ⊢
        exact parse_hex_int_marked 'X' (Or.inr rfl) rest hne hall
    · have hsd : specDropMark (c0 :: c1 :: rest) = c0 :: c1 :: rest := by
        simp only [specDropMark]
        rw [if_neg hm]
      rw [hsd] at hall ⊢
      exact parse_hex_int_plain (c0 :: c1 :: rest) (by simp) hall

/-- Witness for the amended C5. -/
theorem parse_hex_int_amended_witness :
    wellFormedHex "0x10FFFF".data = true ∧
    parse_hex_int "0x10FFFF".data = specHexParse "0x10FFFF".data :=
  ⟨by decide, parse_hex_int_amended.1 "0x10FFFF".data (by decide)⟩

/-! ## Lemmas about one loop iteration -/

theorem stepGlyph_skip {src : Font} {cp : Nat} (sf : ℚ) (mode : List Char)
    (raises : Nat → Bool) (excG : Nat → Option Glyph → Option Glyph)
    (opath : List Char) (st : LoopState)
    (h : outputtable src cp = false) :
    stepGlyph src sf mode raises excG opath st cp =
      ({ st with skipped := st.skipped + 1 }, [Ev.logSkip cp]) := by
  unfold stepGlyph
  unfold outputtable at h
  rcases hsg : src.glyphs cp with _ | sg
  · rfl
  · rw [hsg] at h
    simp only [slotWorth] at h
    simp only [stepGlyphSlot, if_pos h]

theorem stepGlyph_raise {src : Font} {cp : Nat} {sg : Glyph} (sf : ℚ) (mode : List Char)
    {raises : Nat → Bool} (excG : Nat → Option Glyph → Option Glyph)
    (opath : List Char) (st : LoopState)
    (hsg : src.glyphs cp = some sg) (hw : sg.worth = true) (hr : raises cp = true) :
    stepGlyph src sf mode raises excG opath st cp =
      ({ st with out := setSlot st.out cp (excG cp (st.out.glyphs cp)) },
       [Ev.mutateGlyph opath cp, Ev.logError cp]) := by
  unfold stepGlyph
  rw [hsg]
  simp only [stepGlyphSlot, hw, if_neg (by simp : ¬(true = false)), if_pos hr]

theorem stepGlyph_success {src : Font} {cp : Nat} {sg : Glyph} (sf : ℚ) (mode : List Char)
    {raises : Nat → Bool} (excG : Nat → Option Glyph → Option Glyph)
    (opath : List Char) (st : LoopState)
    (hsg : src.glyphs cp = some sg) (hw : sg.worth = true) (hr : raises cp = false) :
    stepGlyph src sf mode raises excG opath st cp =
      ({ out := setSlot st.out cp (some (transferredGlyph sf mode sg (st.out.glyphs cp))),
         replaced := st.replaced + 1, skipped := st.skipped },
       [Ev.mutateGlyph opath cp, Ev.logReplace cp]) := by
  unfold stepGlyph
  rw [hsg]
  simp only [stepGlyphSlot, hw, if_neg (by simp : ¬(true = false)), hr,
    if_neg (by simp : ¬(false = true))]

theorem stepGlyph_glyphs_ne {src : Font} {cp c : Nat} (sf : ℚ) (mode : List Char)
    (raises : Nat → Bool) (excG : Nat → Option Glyph → Option Glyph)
    (opath : List Char) (st : LoopState) (h : c ≠ cp) :
    ((stepGlyph src sf mode raises excG opath st cp).1).out.glyphs c = st.out.glyphs c := by
  unfold stepGlyph
  rcases hsg : src.glyphs cp with _ | sg
  · rfl
  · simp only [stepGlyphSlot]
    by_cases hw : sg.worth = false
    · rw [if_pos hw]
    · rw [if_neg hw]
      by_cases hr : raises cp = true
      · rw [if_pos hr]
        simp [setSlot, h]
      · rw [if_neg hr]
        simp [setSlot, h]

/-! ## Lemmas about the whole loop -/

theorem runLoop_out_not_mem {src : Font} {cp : Nat} (sf : ℚ) (mode : List Char)
    (raises : Nat → Bool) (excG : Nat → Option Glyph → Option Glyph) (opath : List Char) :
    ∀ (cps : List Nat), cp ∉ cps → ∀ st : LoopState,
      ((runLoop src sf mode raises excG opath st cps).1).out.glyphs cp = st.out.glyphs cp := by
  intro cps
  induction cps with
  | nil => intro _ st; rfl
  | cons c rest ih =>
    intro h st
    simp only [runLoop]
    rw [ih (fun hm => h (List.mem_cons_of_mem c hm)) _,
      stepGlyph_glyphs_ne sf mode raises excG opath st
        (fun he => h (by rw [he]; exact List.mem_cons_self c rest))]

theorem runLoop_out_skip {src : Font} {cp : Nat} (sf : ℚ) (mode : List Char)
    (raises : Nat → Bool) (excG : Nat → Option Glyph → Option Glyph) (opath : List Char)
    (h : outputtable src cp = false) :
    ∀ (cps : List Nat) (st : LoopState),
      ((runLoop src sf mode raises excG opath st cps).1).out.glyphs cp = st.out.glyphs cp := by
  intro cps
  induction cps with
  | nil => intro st; rfl
  | cons c rest ih =>
    intro st
    simp only [runLoop]
    rw [ih]
    by_cases hc : c = cp
    · subst hc
      rw [stepGlyph_skip sf mode raises excG opath st h]
    · exact stepGlyph_glyphs_ne sf mode raises excG opath st (fun he => hc he.symm)

theorem runLoop_out_success {src : Font} {cp : Nat} {sg : Glyph} (sf : ℚ) (mode : List Char)
    {raises : Nat → Bool} (excG : Nat → Option Glyph → Option Glyph) (opath : List Char)
    (hsg : src.glyphs cp = some sg) (hw : sg.worth = true) (hr : raises cp = false) :
    ∀ (cps : List Nat), cps.Nodup → cp ∈ cps → ∀ st : LoopState,
      ((runLoop src sf mode raises excG opath st cps).1).out.glyphs cp =
        some (transferredGlyph sf mode sg (st.out.glyphs cp)) := by
  intro cps
  induction cps with
  | nil => intro _ hmem; exact absurd hmem (by simp)
  | cons c rest ih =>
    intro hnd hmem st
    simp only [runLoop]
    rcases List.mem_cons.1 hmem with rfl | hmem'
    · have hnotin : cp ∉ rest := (List.nodup_cons.1 hnd).1
      rw [runLoop_out_not_mem sf mode raises excG opath rest hnotin,
        stepGlyph_success sf mode excG opath st hsg hw hr]
      simp [setSlot]
    · have hc : c ≠ cp := by
        rintro rfl
        exact (List.nodup_cons.1 hnd).1 hmem'
      rw [ih (List.nodup_cons.1 hnd).2 hmem',
        stepGlyph_glyphs_ne sf mode raises excG opath st (fun he => hc he.symm)]

theorem runLoop_counters {src : Font} (sf : ℚ) (mode : List Char)
    (raises : Nat → Bool) (excG : Nat → Option Glyph → Option Glyph) (opath : List Char) :
    ∀ (cps : List Nat) (st : LoopState),
      ((runLoop src sf mode raises excG opath st cps).1).replaced =
        st.replaced + cps.countP (fun c => outputtable src c && !raises c) ∧
      ((runLoop src sf mode raises excG opath st cps).1).skipped =
        st.skipped + cps.countP (fun c => !outputtable src c) := by
  intro cps
  induction cps with
  | nil => intro st; exact ⟨rfl, rfl⟩
  | cons c rest ih =>
    intro st
    simp only [runLoop, List.countP_cons]
    rcases hsg : src.glyphs c with _ | sg
    · have ho : outputtable src c = false := by
        unfold outputtable
        rw [hsg]
        rfl
      rw [stepGlyph_skip sf mode raises excG opath st ho]
      obtain ⟨h1, h2⟩ := ih { st with skipped := st.skipped + 1 }
      refine ⟨by rw [h1]; simp [ho], by rw [h2]; simp [ho]; omega⟩
    · by_cases hw : sg.worth = true
      · have ho : outputtable src c = true := by
          unfold outputtable
          rw [hsg]
          exact hw
        by_cases hr : raises c = true
        · rw [stepGlyph_raise sf mode excG opath st hsg hw hr]
          obtain ⟨h1, h2⟩ := ih { st with out := setSlot st.out c (excG c (st.out.glyphs c)) }
          refine ⟨by rw [h1]; simp [ho, hr], by rw [h2]; simp [ho]⟩
        · have hr' : raises c = false := by simpa using hr
          rw [stepGlyph_success sf mode excG opath st hsg hw hr']
          obtain ⟨h1, h2⟩ := ih { out := setSlot st.out c (some (transferredGlyph sf mode sg (st.out.glyphs c))), replaced := st.replaced + 1, skipped := st.skipped }
          refine ⟨by rw [h1]; simp [ho, hr']; omega, by rw [h2]; simp [ho]⟩
      · have ho : outputtable src c = false := by
          unfold outputtable
          rw [hsg]
          simpa [slotWorth] using hw
        rw [stepGlyph_skip sf mode raises excG opath st ho]
        obtain ⟨h1, h2⟩ := ih { st with skipped := st.skipped + 1 }
        refine ⟨by rw [h1]; simp [ho], by rw [h2]; simp [ho]; omega⟩

theorem stepGlyph_events {src : Font} {cp : Nat} (sf : ℚ) (mode : List Char)
    (raises : Nat → Bool) (excG : Nat → Option Glyph → Option Glyph)
    (opath : List Char) (st : LoopState) :
    ∀ e ∈ (stepGlyph src sf mode raises excG opath st cp).2,
      e = Ev.logSkip cp ∨ e = Ev.logError cp ∨ e = Ev.logReplace cp ∨
        e = Ev.mutateGlyph opath cp := by
  intro e he
  unfold stepGlyph at he
  rcases hsg : src.glyphs cp with _ | sg <;> rw [hsg] at he
  · simp only [stepGlyphSlot] at he
    rcases List.mem_singleton.1 he with rfl
    exact Or.inl rfl
  · simp only [stepGlyphSlot] at he
    by_cases hw : sg.worth = false
    · rw [if_pos hw] at he
      rcases List.mem_singleton.1 he with rfl
      exact Or.inl rfl
    · rw [if_neg hw] at he
      by_cases hr : raises cp = true
      · rw [if_pos hr] at he
        rcases List.mem_cons.1 he with rfl | he'
        · exact Or.inr (Or.inr (Or.inr rfl))
        · rcases List.mem_singleton.1 he' with rfl
          exact Or.inr (Or.inl rfl)
      · rw [if_neg hr] at he
        rcases List.mem_cons.1 he with rfl | he'
        · exact Or.inr (Or.inr (Or.inr rfl))
        · rcases List.mem_singleton.1 he' with rfl
          exact Or.inr (Or.inr (Or.inl rfl))

theorem runLoop_events {src : Font} (sf : ℚ) (mode : List Char)
    (raises : Nat → Bool) (excG : Nat → Option Glyph → Option Glyph) (opath : List Char) :
    ∀ (cps : List Nat) (st : LoopState),
      ∀ e ∈ (runLoop src sf mode raises excG opath st cps).2,
        ∃ c ∈ cps, e = Ev.logSkip c ∨ e = Ev.logError c ∨ e = Ev.logReplace c ∨
          e = Ev.mutateGlyph opath c := by
  intro cps
  induction cps with
  | nil => intro st e he; exact absurd he (by simp [runLoop])
  | cons c rest ih =>
    intro st e he
    simp only [runLoop, List.mem_append] at he
    rcases he with he | he
    · exact ⟨c, List.mem_cons_self c rest, stepGlyph_events sf mode raises excG opath st e he⟩
    · obtain ⟨c2, hc2, hor⟩ := ih _ e he
      exact ⟨c2, List.mem_cons_of_mem c hc2, hor⟩

theorem runLoop_logSkip {src : Font} {cp : Nat} (sf : ℚ) (mode : List Char)
    (raises : Nat → Bool) (excG : Nat → Option Glyph → Option Glyph) (opath : List Char)
    (h : outputtable src cp = false) :
    ∀ (cps : List Nat), cp ∈ cps → ∀ st : LoopState,
      Ev.logSkip cp ∈ (runLoop src sf mode raises excG opath st cps).2 := by
  intro cps
  induction cps with
  | nil => intro hmem; exact absurd hmem (by simp)
  | cons c rest ih =>
    intro hmem st
    simp only [runLoop, List.mem_append]
    rcases List.mem_cons.1 hmem with rfl | hmem'
    · left
      rw [stepGlyph_skip sf mode raises excG opath st h]
      exact List.mem_singleton.2 rfl
    · right
      exact ih hmem' _

/-! ## Properties of the written glyph -/

theorem transferredGlyph_width (sf : ℚ) (mode : List Char) (sg : Glyph) (old : Option Glyph) :
    (transferredGlyph sf mode sg old).width = ((pyRound (sg.width * sf) : ℤ) : ℚ) := rfl

theorem transferredGlyph_lsb (sf : ℚ) (mode : List Char) (sg : Glyph) (old : Option Glyph) :
    (transferredGlyph sf mode sg old).lsb = ((pyRound (sg.lsb * sf) : ℤ) : ℚ) := rfl

theorem transferredGlyph_rsb (sf : ℚ) (mode : List Char) (sg : Glyph) (old : Option Glyph) :
    (transferredGlyph sf mode sg old).rsb = ((pyRound (sg.rsb * sf) : ℤ) : ℚ) := rfl

theorem transferredGlyph_ymax_mode2_worth (sf : ℚ) (sg : Glyph) (old : Option Glyph)
    (hw : slotWorth old = true) :
    (transferredGlyph sf "2".data sg old).ymax = slotTop old := by
  rcases old with _ | og
  · exact absurd hw (by simp [slotWorth])
  · have how : og.worth = true := hw
    simp [transferredGlyph, translateYGlyph, scaleGlyph, how, slotTop]

theorem transferredGlyph_ymax_mode2_unworth (sf : ℚ) (sg : Glyph) (old : Option Glyph)
    (hw : slotWorth old = false) :
    (transferredGlyph sf "2".data sg old).ymax = sf * sg.ymax := by
  rcases old with _ | og
  · simp [transferredGlyph, translateYGlyph, scaleGlyph]
  · have how : og.worth = false := hw
    simp [transferredGlyph, translateYGlyph, scaleGlyph, how]

/-! ## Inversion of a successful run -/

theorem mainRun_success {inp : RunInput} {sp dp : List Char}
    (hlib : inp.libAvailable = true) (hcps : cpsOf inp ≠ [])
    (hsp : srcPathOf inp = some sp) (hdp : destPathOf inp = some dp)
    (ho : inp.openFails = false) :
    mainRun inp =
      ([Ev.mkdirOutput,
        Ev.copyFile dp (output_path dp (pyStrip inp.font_name_raw)),
        Ev.openFont sp,
        Ev.openFont (output_path dp (pyStrip inp.font_name_raw)),
        Ev.mutateMeta (output_path dp (pyStrip inp.font_name_raw))] ++
        (loopOf inp (output_path dp (pyStrip inp.font_name_raw))).2 ++
        [Ev.generate (output_path dp (pyStrip inp.font_name_raw)),
         Ev.reportCounts (loopOf inp (output_path dp (pyStrip inp.font_name_raw))).1.replaced
           (loopOf inp (output_path dp (pyStrip inp.font_name_raw))).1.skipped],
       some (loopOf inp (output_path dp (pyStrip inp.font_name_raw))).1) := by
  unfold mainRun
  rw [hlib, hsp, hdp, ho]
  simp only [Bool.true_eq_false, Bool.false_eq_true, if_false, if_neg hcps]

/-! ## C1: scaled metrics of every transferred glyph -/

/-- C1: the scale factor is the destination (output) font's units-per-em over
the source font's, computed once per run, and every transferred glyph's
written width, lsb and rsb equal the source glyph's values multiplied by that
factor and rounded to the nearest integer. -/
theorem claim_scaled_metrics (inp : RunInput) (sp dp : List Char) (cp : Nat) (sg : Glyph)
    (hlib : inp.libAvailable = true)
    (hsp : srcPathOf inp = some sp) (hdp : destPathOf inp = some dp)
    (ho : inp.openFails = false)
    (hmem : cp ∈ cpsOf inp)
    (hsg : inp.srcFont.glyphs cp = some sg) (hw : sg.worth = true)
    (hr : inp.raises cp = false) :
    scale_factor inp.outFont inp.srcFont = (inp.outFont.em : ℚ) / (inp.srcFont.em : ℚ) ∧
    ∃ st g, (mainRun inp).2 = some st ∧ st.out.glyphs cp = some g ∧
      g.width = ((pyRound (sg.width * scale_factor inp.outFont inp.srcFont) : ℤ) : ℚ) ∧
      g.lsb = ((pyRound (sg.lsb * scale_factor inp.outFont inp.srcFont) : ℤ) : ℚ) ∧
      g.rsb = ((pyRound (sg.rsb * scale_factor inp.outFont inp.srcFont) : ℤ) : ℚ) := by
  have hcps : cpsOf inp ≠ [] := List.ne_nil_of_mem hmem
  have hnd : (cpsOf inp).Nodup := finalCodepoints_nodup _ _ _
  refine ⟨rfl, ?_⟩
  rw [mainRun_success hlib hcps hsp hdp ho]
  refine ⟨_, transferredGlyph (scale_factor inp.outFont inp.srcFont) (alignMode inp.align_raw)
    sg (inp.outFont.glyphs cp), rfl, ?_, transferredGlyph_width _ _ _ _,
    transferredGlyph_lsb _ _ _ _, transferredGlyph_rsb _ _ _ _⟩
  exact runLoop_out_success _ _ inp.excG _ hsg hw hr (cpsOf inp) hnd hmem _

/-- Witness for C1, at a run with em sizes 1000 and 2048. -/
theorem claim_scaled_metrics_witness :
    (0x41 ∈ cpsOf exInput ∧ exInput.srcFont.glyphs 0x41 = some exGlyph) ∧
    (scale_factor exInput.outFont exInput.srcFont =
        (exInput.outFont.em : ℚ) / (exInput.srcFont.em : ℚ) ∧
      ∃ st g, (mainRun exInput).2 = some st ∧ st.out.glyphs 0x41 = some g ∧
        g.width = ((pyRound (exGlyph.width * scale_factor exInput.outFont exInput.srcFont) : ℤ) : ℚ) ∧
        g.lsb = ((pyRound (exGlyph.lsb * scale_factor exInput.outFont exInput.srcFont) : ℤ) : ℚ) ∧
        g.rsb = ((pyRound (exGlyph.rsb * scale_factor exInput.outFont exInput.srcFont) : ℤ) : ℚ)) :=
  ⟨⟨by decide, rfl⟩,
    claim_scaled_metrics exInput "Source/src.ttf".data "Destination/dest.otf".data 0x41 exGlyph
      rfl (by decide) (by decide) rfl (by decide) rfl rfl rfl⟩

/-! ## C2: alignment mode 2 -/

/-- C2: under alignment mode 2, a transferred glyph at a codepoint where the
output font previously had an outputtable glyph ends with its top y equal to
the old glyph's top y (the shift applied after scaling is the old top minus
the scaled top); where the output font had no outputtable glyph, no vertical
shift is applied and the top y is the scaled source top. -/
theorem claim_align_mode2 (inp : RunInput) (sp dp : List Char) (cp : Nat) (sg : Glyph)
    (hmode : alignMode inp.align_raw = "2".data)
    (hlib : inp.libAvailable = true)
    (hsp : srcPathOf inp = some sp) (hdp : destPathOf inp = some dp)
    (ho : inp.openFails = false)
    (hmem : cp ∈ cpsOf inp)
    (hsg : inp.srcFont.glyphs cp = some sg) (hw : sg.worth = true)
    (hr : inp.raises cp = false) :
    ∃ st g, (mainRun inp).2 = some st ∧ st.out.glyphs cp = some g ∧
      (outputtable inp.outFont cp = true → g.ymax = glyphTop inp.outFont cp) ∧
      (outputtable inp.outFont cp = false →
        g.ymax = scale_factor inp.outFont inp.srcFont * sg.ymax) := by
  have hcps : cpsOf inp ≠ [] := List.ne_nil_of_mem hmem
  have hnd : (cpsOf inp).Nodup := finalCodepoints_nodup _ _ _
  rw [mainRun_success hlib hcps hsp hdp ho]
  refine ⟨_, transferredGlyph (scale_factor inp.outFont inp.srcFont) (alignMode inp.align_raw)
    sg (inp.outFont.glyphs cp), rfl,
    runLoop_out_success _ _ inp.excG _ hsg hw hr (cpsOf inp) hnd hmem _, ?_, ?_⟩
  · intro hout
    rw [hmode]
    exact transferredGlyph_ymax_mode2_worth _ _ _ hout
  · intro hout
    rw [hmode]
    exact transferredGlyph_ymax_mode2_unworth _ _ _ hout

/-- Witness for C2 at a destination glyph with top y = 700. -/
theorem claim_align_mode2_witness :
    (alignMode exInput.align_raw = "2".data ∧ outputtable exInput.outFont 0x41 = true ∧
      glyphTop exInput.outFont 0x41 = 700) ∧
    (∃ st g, (mainRun exInput).2 = some st ∧ st.out.glyphs 0x41 = some g ∧
      (outputtable exInput.outFont 0x41 = true → g.ymax = glyphTop exInput.outFont 0x41) ∧
      (outputtable exInput.outFont 0x41 = false →
        g.ymax = scale_factor exInput.outFont exInput.srcFont * exGlyph.ymax)) :=
  ⟨⟨by decide, rfl, rfl⟩,
    claim_align_mode2 exInput "Source/src.ttf".data "Destination/dest.otf".data 0x41 exGlyph
      (by decide) rfl (by decide) (by decide) rfl (by decide) rfl rfl rfl⟩

/-! ## C3: missing source glyph is skipped -/

/-- C3: a requested codepoint with no outputtable source glyph is logged as
skipped, counted in the skipped total, and the output font's slot at that
codepoint is left exactly as it was; the run still completes, serializes to
the output path, and reports the final counts. -/
theorem claim_missing_source_skip (inp : RunInput) (sp dp : List Char) (cp : Nat)
    (hlib : inp.libAvailable = true)
    (hsp : srcPathOf inp = some sp) (hdp : destPathOf inp = some dp)
    (ho : inp.openFails = false)
    (hmem : cp ∈ cpsOf inp)
    (hmiss : outputtable inp.srcFont cp = false) :
    ∃ st, (mainRun inp).2 = some st ∧
      st.out.glyphs cp = inp.outFont.glyphs cp ∧
      st.skipped = (cpsOf inp).countP (fun c => !outputtable inp.srcFont c) ∧
      Ev.logSkip cp ∈ (mainRun inp).1 ∧
      Ev.generate (output_path dp (pyStrip inp.font_name_raw)) ∈ (mainRun inp).1 ∧
      Ev.reportCounts st.replaced st.skipped ∈ (mainRun inp).1 := by
  have hcps : cpsOf inp ≠ [] := List.ne_nil_of_mem hmem
  rw [mainRun_success hlib hcps hsp hdp ho]
  refine ⟨(loopOf inp (output_path dp (pyStrip inp.font_name_raw))).1, rfl, ?_, ?_, ?_, ?_, ?_⟩
  · exact runLoop_out_skip _ _ _ inp.excG _ hmiss (cpsOf inp) _
  · have h := (@runLoop_counters inp.srcFont (scale_factor inp.outFont inp.srcFont)
      (alignMode inp.align_raw) inp.raises inp.excG (output_path dp (pyStrip inp.font_name_raw))
      (cpsOf inp) { out := inp.outFont, replaced := 0, skipped := 0 }).2
    simpa [loopOf] using h
  · simp only [List.mem_append]
    exact Or.inl (Or.inr (runLoop_logSkip _ _ _ inp.excG _ hmiss (cpsOf inp) hmem _))
  · simp
  · simp

/-- Witness for C3 at a source font lacking U+0044. -/
theorem claim_missing_source_skip_witness :
    (0x44 ∈ cpsOf exInputMissing ∧ outputtable exInputMissing.srcFont 0x44 = false) ∧
    (∃ st, (mainRun exInputMissing).2 = some st ∧
      st.out.glyphs 0x44 = exInputMissing.outFont.glyphs 0x44 ∧
      st.skipped = (cpsOf exInputMissing).countP (fun c => !outputtable exInputMissing.srcFont c) ∧
      Ev.logSkip 0x44 ∈ (mainRun exInputMissing).1 ∧
      Ev.generate (output_path "Destination/dest.otf".data
        (pyStrip exInputMissing.font_name_raw)) ∈ (mainRun exInputMissing).1 ∧
      Ev.reportCounts st.replaced st.skipped ∈ (mainRun exInputMissing).1) :=
  ⟨⟨by decide, rfl⟩,
    claim_missing_source_skip exInputMissing "Source/src.ttf".data "Destination/dest.otf".data
      0x44 rfl (by decide) (by decide) rfl (by decide) rfl⟩

/-! ## The abort branches of `main` -/

theorem mainRun_noLib {inp : RunInput} (h : inp.libAvailable = false) :
    mainRun inp = ([Ev.exitP 1], none) := by
  unfold mainRun
  rw [h, if_pos rfl]

theorem mainRun_emptyCps {inp : RunInput} (hlib : inp.libAvailable = true)
    (h : cpsOf inp = []) :
    mainRun inp = ([Ev.mkdirOutput, Ev.exitP 0], none) := by
  unfold mainRun
  rw [hlib]
  simp only [Bool.true_eq_false, if_false, h, if_pos rfl, if_true]

theorem mainRun_selectFail {inp : RunInput} (hlib : inp.libAvailable = true)
    (hcps : cpsOf inp ≠ []) (h : srcPathOf inp = none ∨ destPathOf inp = none) :
    mainRun inp = ([Ev.mkdirOutput, Ev.exitP 1], none) := by
  unfold mainRun
  rw [hlib]
  simp only [Bool.true_eq_false, if_false, if_neg hcps]
  rcases h with h | h
  · rw [h]
  · rw [h]
    cases srcPathOf inp <;> rfl

theorem mainRun_openFail {inp : RunInput} {sp dp : List Char}
    (hlib : inp.libAvailable = true) (hcps : cpsOf inp ≠ [])
    (hsp : srcPathOf inp = some sp) (hdp : destPathOf inp = some dp)
    (ho : inp.openFails = true) :
    mainRun inp =
      ([Ev.mkdirOutput, Ev.copyFile dp (output_path dp (pyStrip inp.font_name_raw)),
        Ev.exitP 1], none) := by
  unfold mainRun
  rw [hlib, hsp, hdp, ho]
  simp only [Bool.true_eq_false, if_false, if_neg hcps, if_pos rfl, if_true]

/-! ## C4: fatal setup errors -/

/-- C4 as stated is refuted on the font-open-failure path: the destination
file has already been copied to the output path (the output file exists) when
the process exits with code 1. -/
theorem claim_fatal_setup_cex :
    (mainRun exInputOpenFail).1 =
      [Ev.mkdirOutput,
       Ev.copyFile "Destination/dest.otf".data "Output/MyFont.otf".data,
       Ev.exitP 1] ∧
    Ev.copyFile "Destination/dest.otf".data "Output/MyFont.otf".data ∈
      (mainRun exInputOpenFail).1 ∧
    Ev.exitP 1 ∈ (mainRun exInputOpenFail).1 :=
  ⟨by decide, by decide, by decide⟩

/-- C4 amended: the library-missing and no-font-file paths exit with code 1
before any file is created or changed (their traces contain no copy and no
serialization); the font-open-failure path also exits with code 1, but only
after the destination file has been copied to the output path — the copy is
created, though never mutated or serialized. -/
theorem claim_fatal_setup (inp : RunInput) :
    (inp.libAvailable = false → mainRun inp = ([Ev.exitP 1], none)) ∧
    (inp.libAvailable = true → cpsOf inp ≠ [] →
      (srcPathOf inp = none ∨ destPathOf inp = none) →
      mainRun inp = ([Ev.mkdirOutput, Ev.exitP 1], none)) ∧
    (∀ sp dp, inp.libAvailable = true → cpsOf inp ≠ [] →
      srcPathOf inp = some sp → destPathOf inp = some dp → inp.openFails = true →
      mainRun inp =
        ([Ev.mkdirOutput, Ev.copyFile dp (output_path dp (pyStrip inp.font_name_raw)),
          Ev.exitP 1], none)) :=
  ⟨mainRun_noLib,
   fun hlib hcps h => mainRun_selectFail hlib hcps h,
   fun _ _ hlib hcps hsp hdp ho => mainRun_openFail hlib hcps hsp hdp ho⟩

/-- Witness for the amended C4 on the open-failure path. -/
theorem claim_fatal_setup_witness :
    (exInputOpenFail.openFails = true ∧ cpsOf exInputOpenFail ≠ []) ∧
    mainRun exInputOpenFail =
      ([Ev.mkdirOutput,
        Ev.copyFile "Destination/dest.otf".data
          (output_path "Destination/dest.otf".data (pyStrip exInputOpenFail.font_name_raw)),
        Ev.exitP 1], none) :=
  ⟨⟨rfl, by decide⟩,
    (claim_fatal_setup exInputOpenFail).2.2 "Source/src.ttf".data "Destination/dest.otf".data
      rfl (by decide) (by decide) (by decide) rfl⟩

/-! ## C10: exceptions after the availability check -/

theorem countP_disjoint_le (p q : Nat → Bool) (hd : ∀ c, ¬(p c = true ∧ q c = true)) :
    ∀ l : List Nat, l.countP p + l.countP q ≤ l.length := by
  intro l
  induction l with
  | nil => simp
  | cons c rest ih =>
    simp only [List.countP_cons, List.length_cons]
    by_cases hp : p c = true
    · have hq : ¬(q c = true) := fun hq => hd c ⟨hp, hq⟩
      simp only [hp, if_true, if_neg hq]
      omega
    · simp only [if_neg hp]
      by_cases hq : q c = true
      · simp only [hq, if_true]
        omega
      · simp only [if_neg hq]
        omega

theorem countP_disjoint_lt (p q : Nat → Bool) (hd : ∀ c, ¬(p c = true ∧ q c = true))
    (x : Nat) (hp : p x = false) (hq : q x = false) :
    ∀ l : List Nat, x ∈ l → l.countP p + l.countP q < l.length := by
  intro l
  induction l with
  | nil => intro h; exact absurd h (by simp)
  | cons c rest ih =>
    intro hmem
    simp only [List.countP_cons, List.length_cons]
    rcases List.mem_cons.1 hmem with rfl | hmem'
    · have hle := countP_disjoint_le p q hd rest
      simp only [hp, hq, Bool.false_eq_true, if_false]
      omega
    · have hlt := ih hmem'
      by_cases hpc : p c = true
      · have hqc : ¬(q c = true) := fun h2 => hd c ⟨hpc, h2⟩
        simp only [hpc, if_true, if_neg hqc]
        omega
      · simp only [if_neg hpc]
        by_cases hqc : q c = true
        · simp only [hqc, if_true]
          omega
        · simp only [if_neg hqc]
          omega

/-- C10: a codepoint whose transfer raises after passing the source-glyph
availability check increments neither counter, so the reported
replaced + skipped totals are strictly below the number of requested
codepoints whenever such a codepoint exists. -/
theorem claim_error_counters :
    (∀ (src : Font) (sf : ℚ) (mode : List Char) (raises : Nat → Bool)
        (excG : Nat → Option Glyph → Option Glyph) (opath : List Char)
        (st : LoopState) (cp : Nat) (sg : Glyph),
        src.glyphs cp = some sg → sg.worth = true → raises cp = true →
        (stepGlyph src sf mode raises excG opath st cp).1.replaced = st.replaced ∧
        (stepGlyph src sf mode raises excG opath st cp).1.skipped = st.skipped) ∧
    (∀ (inp : RunInput) (r s : Nat), Ev.reportCounts r s ∈ (mainRun inp).1 →
      (∃ cp ∈ cpsOf inp, outputtable inp.srcFont cp = true ∧ inp.raises cp = true) →
      r + s < (cpsOf inp).length) := by
  constructor
  · intro src sf mode raises excG opath st cp sg hsg hw hr
    rw [stepGlyph_raise sf mode excG opath st hsg hw hr]
    exact ⟨rfl, rfl⟩
  · intro inp r s hmem hex
    by_cases hlib : inp.libAvailable = false
    · rw [mainRun_noLib hlib] at hmem
      simp at hmem
    · have hlib' : inp.libAvailable = true := by simpa using hlib
      by_cases hcps : cpsOf inp = []
      · rw [mainRun_emptyCps hlib' hcps] at hmem
        simp at hmem
      · rcases hsp : srcPathOf inp with _ | sp
        · rw [mainRun_selectFail hlib' hcps (Or.inl hsp)] at hmem
          simp at hmem
        · rcases hdp : destPathOf inp with _ | dp
          · rw [mainRun_selectFail hlib' hcps (Or.inr hdp)] at hmem
            simp at hmem
          · by_cases ho : inp.openFails = true
            · rw [mainRun_openFail hlib' hcps hsp hdp ho] at hmem
              simp at hmem
            · have ho' : inp.openFails = false := by simpa using ho
              rw [mainRun_success hlib' hcps hsp hdp ho'] at hmem
              rcases List.mem_append.1 hmem with h | h
              · rcases List.mem_append.1 h with h | h
                · simp at h
                · obtain ⟨c2, -, hor⟩ := runLoop_events _ _ _ _ _ (cpsOf inp) _ _ h
                  rcases hor with h1 | h1 | h1 | h1 <;> exact absurd h1 (by simp)
              · rcases List.mem_cons.1 h with h | h
                · simp at h
                · have h2 := List.mem_singleton.1 h
                  obtain ⟨rfl, rfl⟩ : r = (loopOf inp (output_path dp (pyStrip inp.font_name_raw))).1.replaced ∧
                      s = (loopOf inp (output_path dp (pyStrip inp.font_name_raw))).1.skipped := by
                    injection h2 with ha hb
                    exact ⟨ha, hb⟩
                  have hcnt := @runLoop_counters inp.srcFont (scale_factor inp.outFont inp.srcFont)
                    (alignMode inp.align_raw) inp.raises inp.excG
                    (output_path dp (pyStrip inp.font_name_raw))
                    (cpsOf inp) { out := inp.outFont, replaced := 0, skipped := 0 }
                  obtain ⟨hrep, hskp⟩ := hcnt
                  obtain ⟨cp, hcmem, hcout, hcr⟩ := hex
                  have hd : ∀ c, ¬((outputtable inp.srcFont c && !inp.raises c) = true ∧
                      (!outputtable inp.srcFont c) = true) := by
                    rintro c ⟨h1, h2⟩
                    rw [Bool.and_eq_true] at h1
                    rw [h1.1] at h2
                    exact absurd h2 (by decide)
                  have hp : (outputtable inp.srcFont cp && !inp.raises cp) = false := by
                    rw [hcout, hcr]
                    rfl
                  have hq : (!outputtable inp.srcFont cp) = false := by
                    rw [hcout]
                    rfl
                  have hlt := countP_disjoint_lt _ _ hd cp hp hq (cpsOf inp) hcmem
                  unfold loopOf
                  rw [hrep, hskp]
                  simpa using hlt

/-- Witness for C10 at a run whose only transfer raises. -/
theorem claim_error_counters_witness :
    (Ev.reportCounts 0 0 ∈ (mainRun exInputRaise).1 ∧
      outputtable exInputRaise.srcFont 0x41 = true ∧ exInputRaise.raises 0x41 = true) ∧
    0 + 0 < (cpsOf exInputRaise).length :=
  ⟨⟨by decide, rfl, rfl⟩,
    claim_error_counters.2 exInputRaise 0 0 (by decide) ⟨0x41, by decide, rfl, rfl⟩⟩

/-! ## C9: the copy-then-mutate discipline -/

theorem headI_mem {l : List (List Char)} (h : l ≠ []) : l.headI ∈ l := by
  cases l with
  | nil => exact absurd rfl h
  | cons a as => exact List.mem_cons_self a as

theorem pyListGet_mem {fs : List (List Char)} {i : Int} {x : List Char}
    (h : pyListGet fs i = some x) : x ∈ fs := by
  unfold pyListGet at h
  by_cases h1 : 0 ≤ i ∧ i < (fs.length : Int)
  · rw [if_pos h1] at h
    exact List.get?_mem h
  · rw [if_neg h1] at h
    by_cases h2 : -(fs.length : Int) ≤ i ∧ i < 0
    · rw [if_pos h2] at h
      exact List.get?_mem h
    · rw [if_neg h2] at h
      exact Option.noConfusion h

theorem find_font_files_mem {listing : Option (List (List Char))} {f : List Char}
    (h : f ∈ find_font_files listing) : ∃ fs, listing = some fs ∧ f ∈ fs := by
  cases listing with
  | none => exact absurd h (by simp [find_font_files])
  | some fs => exact ⟨fs, rfl, (List.mem_filter.1 h).1⟩

theorem chooseFile_shape {folder : List Char} {listing : Option (List (List Char))}
    {choice : Option Int} {p : List Char}
    (h : choose_file folder listing choice = some p) :
    ∃ f ∈ find_font_files listing, p = posixJoin folder f := by
  unfold choose_file at h
  cases hfl : find_font_files listing with
  | nil => rw [hfl] at h; exact Option.noConfusion h
  | cons f rest =>
    rw [hfl] at h
    cases rest with
    | nil =>
      injection h with h1
      exact ⟨f, by simp, h1.symm⟩
    | cons f2 r2 =>
      cases choice with
      | none =>
        injection h with h1
        exact ⟨f, by simp, h1.symm⟩
      | some i =>
        injection h with h1
        cases hg : pyListGet (f :: f2 :: r2) i with
        | some f3 =>
          rw [hg] at h1
          exact ⟨f3, pyListGet_mem hg, by rw [← h1]; rfl⟩
        | none =>
          rw [hg] at h1
          exact ⟨f, by simp, by rw [← h1]; rfl⟩

theorem posixJoin_dest {f : List Char} (hf : f.head? ≠ some '/') :
    posixJoin "Destination".data f = "Destination".data ++ '/' :: f := by
  unfold posixJoin
  rw [if_neg hf, if_neg (by decide)]

theorem destPath_headD {inp : RunInput} {dp : List Char}
    (hlist : ∀ fs, inp.destListing = some fs → ∀ f ∈ fs, f.head? ≠ some '/')
    (hdp : destPathOf inp = some dp) : dp.head? = some 'D' := by
  obtain ⟨f, hfm, hpj⟩ := chooseFile_shape hdp
  obtain ⟨fs, hl, hmem⟩ := find_font_files_mem hfm
  rw [hpj, posixJoin_dest (hlist fs hl f hmem)]
  rfl

theorem output_path_ne_destPath {dp : List Char} (name : List Char)
    (hdp : dp.head? = some 'D') : output_path dp name ≠ dp := by
  unfold output_path posixJoin
  by_cases hb : (name ++ outputExt dp).head? = some '/'
  · rw [if_pos hb]
    intro he
    rw [he, hdp] at hb
    exact absurd hb (by simp)
  · rw [if_neg hb, if_neg (by decide)]
    intro he
    have hh : ("Output".data ++ '/' :: (name ++ outputExt dp)).head? = dp.head? := by
      rw [he]
    rw [hdp] at hh
    exact absurd hh (by simp)

theorem outPathOf_eq {inp : RunInput} {dp : List Char} (hdp : destPathOf inp = some dp) :
    outPathOf inp = some (output_path dp (pyStrip inp.font_name_raw)) := by
  unfold outPathOf
  rw [hdp]
  rfl

/-- C9: the destination font file is copied to the output path before any
font mutation: no prefix of the trace before the copy contains a mutation or
a file write; every file write and every in-memory font mutation targets the
output path (the copy); the destination path itself is never written; and a
run that reaches the loop has performed the copy. -/
theorem claim_copy_before_mutation (inp : RunInput)
    (hlist : ∀ fs, inp.destListing = some fs → ∀ f ∈ fs, f.head? ≠ some '/') :
    (∀ e ∈ (mainRun inp).1.takeWhile (fun e => !e.isCopy), e.isMutate = false ∧
       ∀ p, e.writesTo p = false) ∧
    (∀ e ∈ (mainRun inp).1, ∀ p, e.writesTo p = true → outPathOf inp = some p) ∧
    (∀ e ∈ (mainRun inp).1, ∀ p, e.mutatesOf p = true → outPathOf inp = some p) ∧
    (∀ dp, destPathOf inp = some dp → ∀ e ∈ (mainRun inp).1, e.writesTo dp = false) ∧
    ((mainRun inp).2.isSome = true →
      ∃ dp, destPathOf inp = some dp ∧
        Ev.copyFile dp (output_path dp (pyStrip inp.font_name_raw)) ∈ (mainRun inp).1) := by
  by_cases hlib : inp.libAvailable = false
  · rw [mainRun_noLib hlib]
    refine ⟨?_, ?_, ?_, ?_, ?_⟩
    · intro e he
      have he2 : e = Ev.exitP 1 := by
        simpa [List.takeWhile_cons, Ev.isCopy] using he
      subst he2
      exact ⟨rfl, fun p => rfl⟩
    · intro e he p hw
      rcases List.mem_singleton.1 he with rfl
      exact absurd hw (by simp [Ev.writesTo])
    · intro e he p hm
      rcases List.mem_singleton.1 he with rfl
      exact absurd hm (by simp [Ev.mutatesOf])
    · intro dp _ e he
      rcases List.mem_singleton.1 he with rfl
      rfl
    · intro h
      exact absurd h (by simp)
  · have hlib' : inp.libAvailable = true := by simpa using hlib
    by_cases hcps : cpsOf inp = []
    · rw [mainRun_emptyCps hlib' hcps]
      refine ⟨?_, ?_, ?_, ?_, ?_⟩
      · intro e he
        have he2 : e = Ev.mkdirOutput ∨ e = Ev.exitP 0 := by
          simpa [List.takeWhile_cons, Ev.isCopy] using he
        rcases he2 with rfl | rfl
        · exact ⟨rfl, fun p => rfl⟩
        · exact ⟨rfl, fun p => rfl⟩
      · intro e he p hw
        rcases List.mem_cons.1 he with rfl | he2
        · exact absurd hw (by simp [Ev.writesTo])
        · rcases List.mem_singleton.1 he2 with rfl
          exact absurd hw (by simp [Ev.writesTo])
      · intro e he p hm
        rcases List.mem_cons.1 he with rfl | he2
        · exact absurd hm (by simp [Ev.mutatesOf])
        · rcases List.mem_singleton.1 he2 with rfl
          exact absurd hm (by simp [Ev.mutatesOf])
      · intro dp _ e he
        rcases List.mem_cons.1 he with rfl | he2
        · rfl
        · rcases List.mem_singleton.1 he2 with rfl
          rfl
      · intro h
        exact absurd h (by simp)
    · rcases hsp : srcPathOf inp with _ | sp
      · rw [mainRun_selectFail hlib' hcps (Or.inl hsp)]
        refine ⟨?_, ?_, ?_, ?_, ?_⟩
        · intro e he
          have he2 : e = Ev.mkdirOutput ∨ e = Ev.exitP 1 := by
            simpa [List.takeWhile_cons, Ev.isCopy] using he
          rcases he2 with rfl | rfl
          · exact ⟨rfl, fun p => rfl⟩
          · exact ⟨rfl, fun p => rfl⟩
        · intro e he p hw
          rcases List.mem_cons.1 he with rfl | he2
          · exact absurd hw (by simp [Ev.writesTo])
          · rcases List.mem_singleton.1 he2 with rfl
            exact absurd hw (by simp [Ev.writesTo])
        · intro e he p hm
          rcases List.mem_cons.1 he with rfl | he2
          · exact absurd hm (by simp [Ev.mutatesOf])
          · rcases List.mem_singleton.1 he2 with rfl
            exact absurd hm (by simp [Ev.mutatesOf])
        · intro dp _ e he
          rcases List.mem_cons.1 he with rfl | he2
          · rfl
          · rcases List.mem_singleton.1 he2 with rfl
            rfl
        · intro h
          exact absurd h (by simp)
      · rcases hdp : destPathOf inp with _ | dp
        · rw [mainRun_selectFail hlib' hcps (Or.inr hdp)]
          refine ⟨?_, ?_, ?_, ?_, ?_⟩
          · intro e he
            have he2 : e = Ev.mkdirOutput ∨ e = Ev.exitP 1 := by
              simpa [List.takeWhile_cons, Ev.isCopy] using he
            rcases he2 with rfl | rfl
            · exact ⟨rfl, fun p => rfl⟩
            · exact ⟨rfl, fun p => rfl⟩
          · intro e he p hw
            rcases List.mem_cons.1 he with rfl | he2
            · exact absurd hw (by simp [Ev.writesTo])
            · rcases List.mem_singleton.1 he2 with rfl
              exact absurd hw (by simp [Ev.writesTo])
          · intro e he p hm
            rcases List.mem_cons.1 he with rfl | he2
            · exact absurd hm (by simp [Ev.mutatesOf])
            · rcases List.mem_singleton.1 he2 with rfl
              exact absurd hm (by simp [Ev.mutatesOf])
          · intro dp2 _ e he
            rcases List.mem_cons.1 he with rfl | he2
            · rfl
            · rcases List.mem_singleton.1 he2 with rfl
              rfl
          · intro h
            exact absurd h (by simp)
        · have hout : outPathOf inp = some (output_path dp (pyStrip inp.font_name_raw)) :=
            outPathOf_eq hdp
          have hneq : output_path dp (pyStrip inp.font_name_raw) ≠ dp :=
            output_path_ne_destPath _ (destPath_headD hlist hdp)
          by_cases ho : inp.openFails = true
          · rw [mainRun_openFail hlib' hcps hsp hdp ho]
            refine ⟨?_, ?_, ?_, ?_, ?_⟩
            · intro e he
              have he2 : e = Ev.mkdirOutput := by
                simpa [List.takeWhile_cons, Ev.isCopy] using he
              subst he2
              exact ⟨rfl, fun p => rfl⟩
            · intro e he p hw
              rcases List.mem_cons.1 he with rfl | he2
              · exact absurd hw (by simp [Ev.writesTo])
              · rcases List.mem_cons.1 he2 with rfl | he3
                · simp only [Ev.writesTo] at hw
                  rw [hout, of_decide_eq_true hw]
                · rcases List.mem_singleton.1 he3 with rfl
                  exact absurd hw (by simp [Ev.writesTo])
            · intro e he p hm
              rcases List.mem_cons.1 he with rfl | he2
              · exact absurd hm (by simp [Ev.mutatesOf])
              · rcases List.mem_cons.1 he2 with rfl | he3
                · exact absurd hm (by simp [Ev.mutatesOf])
                · rcases List.mem_singleton.1 he3 with rfl
                  exact absurd hm (by simp [Ev.mutatesOf])
            · intro dp2 hdp2 e he
              injection hdp2 with hdp3
              subst hdp3
              rcases List.mem_cons.1 he with rfl | he2
              · rfl
              · rcases List.mem_cons.1 he2 with rfl | he3
                · simp only [Ev.writesTo]
                  exact decide_eq_false hneq
                · rcases List.mem_singleton.1 he3 with rfl
                  rfl
            · intro h
              exact absurd h (by simp)
          · have ho' : inp.openFails = false := by simpa using ho
            rw [mainRun_success hlib' hcps hsp hdp ho']
            simp only [List.cons_append, List.nil_append]
            refine ⟨?_, ?_, ?_, ?_, ?_⟩
            · intro e he
              have he2 : e = Ev.mkdirOutput := by
                simpa [List.takeWhile_cons, Ev.isCopy] using he
              subst he2
              exact ⟨rfl, fun p => rfl⟩
            · intro e he p hw
              simp only [List.mem_cons, List.mem_append, List.mem_singleton,
                List.not_mem_nil, or_false] at he
              rcases he with rfl | rfl | rfl | rfl | rfl | he | rfl | rfl
              · exact absurd hw (by simp [Ev.writesTo])
              · simp only [Ev.writesTo] at hw
                rw [hout, of_decide_eq_true hw]
              · exact absurd hw (by simp [Ev.writesTo])
              · exact absurd hw (by simp [Ev.writesTo])
              · exact absurd hw (by simp [Ev.writesTo])
              · obtain ⟨c2, -, hor⟩ := runLoop_events _ _ _ _ _ (cpsOf inp) _ _ he
                rcases hor with rfl | rfl | rfl | rfl <;>
                  exact absurd hw (by simp [Ev.writesTo])
              · simp only [Ev.writesTo] at hw
                rw [hout, of_decide_eq_true hw]
              · exact absurd hw (by simp [Ev.writesTo])
            · intro e he p hm
              simp only [List.mem_cons, List.mem_append, List.mem_singleton,
                List.not_mem_nil, or_false] at he
              rcases he with rfl | rfl | rfl | rfl | rfl | he | rfl | rfl
              · exact absurd hm (by simp [Ev.mutatesOf])
              · exact absurd hm (by simp [Ev.mutatesOf])
              · exact absurd hm (by simp [Ev.mutatesOf])
              · exact absurd hm (by simp [Ev.mutatesOf])
              · simp only [Ev.mutatesOf] at hm
                rw [hout, of_decide_eq_true hm]
              · obtain ⟨c2, -, hor⟩ := runLoop_events _ _ _ _ _ (cpsOf inp) _ _ he
                rcases hor with rfl | rfl | rfl | rfl
                · exact absurd hm (by simp [Ev.mutatesOf])
                · exact absurd hm (by simp [Ev.mutatesOf])
                · exact absurd hm (by simp [Ev.mutatesOf])
                · simp only [Ev.mutatesOf] at hm
                  rw [hout, of_decide_eq_true hm]
              · exact absurd hm (by simp [Ev.mutatesOf])
              · exact absurd hm (by simp [Ev.mutatesOf])
            · intro dp2 hdp2 e he
              injection hdp2 with hdp3
              subst hdp3
              simp only [List.mem_cons, List.mem_append, List.mem_singleton,
                List.not_mem_nil, or_false] at he
              rcases he with rfl | rfl | rfl | rfl | rfl | he | rfl | rfl
              · rfl
              · simp only [Ev.writesTo]
                exact decide_eq_false hneq
              · rfl
              · rfl
              · rfl
              · obtain ⟨c2, -, hor⟩ := runLoop_events _ _ _ _ _ (cpsOf inp) _ _ he
                rcases hor with rfl | rfl | rfl | rfl <;> rfl
              · simp only [Ev.writesTo]
                exact decide_eq_false hneq
              · rfl
            · rintro -
              exact ⟨dp, rfl, List.mem_cons_of_mem _ (List.mem_cons_self _ _)⟩

/-- Witness for C9 at the fully successful example run. -/
theorem claim_copy_before_mutation_witness :
    (∀ fs, exInput.destListing = some fs → ∀ f ∈ fs, f.head? ≠ some '/') ∧
    ((∀ e ∈ (mainRun exInput).1.takeWhile (fun e => !e.isCopy), e.isMutate = false ∧
        ∀ p, e.writesTo p = false) ∧
      (∀ e ∈ (mainRun exInput).1, ∀ p, e.writesTo p = true → outPathOf exInput = some p) ∧
      (∀ e ∈ (mainRun exInput).1, ∀ p, e.mutatesOf p = true → outPathOf exInput = some p) ∧
      (∀ dp, destPathOf exInput = some dp → ∀ e ∈ (mainRun exInput).1, e.writesTo dp = false) ∧
      ((mainRun exInput).2.isSome = true →
        ∃ dp, destPathOf exInput = some dp ∧
          Ev.copyFile dp (output_path dp (pyStrip exInput.font_name_raw)) ∈ (mainRun exInput).1)) :=
  ⟨by decide, claim_copy_before_mutation exInput (by decide)⟩

end Fonty
